import Mathlib

/-!
Shallow embedding of the CFDI control application's core
(`src/core/data_models.py`, `src/core/xml_parser.py`,
`src/core/excel_processor.py`, configuration in `src/config/settings.py`),
together with theorems settling the specification claims about it.

Python strings are embedded as `String`, Python floats produced by
`float(<string>)` as `ℚ` via an explicit parser model, Python lists as
`List`, Python dictionaries with string keys accessed through
`dict.get(k, '')` as total functions `String → String` whose value on an
absent key is the empty string.
-/

/-- The whitespace stripping Python's `float` applies to its argument
before parsing. -/
def pyStrip (cs : List Char) : List Char :=
  ((cs.dropWhile Char.isWhitespace).reverse.dropWhile Char.isWhitespace).reverse

/-- Model of Python `float(s)` for the decimal strings this application
handles: optional surrounding whitespace, an optional sign, then digits with
an optional fractional part (`"12"`, `"-3.5"`, `".5"`, `"7."`); the digits
`d.f` denote the rational `(d·10^|f| + f) / 10^|f|`.  Returns `none` where
Python raises `ValueError`.  (The exotic inputs Python's `float` also
accepts — exponents, `inf`, `nan`, underscores — are outside the data
domain of this application and are not modelled.) -/
def pyFloat (s : String) : Option ℚ :=
  let digitsVal : List Char → ℕ := fun cs =>
    cs.foldl (fun a c => a * 10 + (c.toNat - 48)) 0
  let parseDec : List Char → Option ℚ := fun cs =>
    let intPart := cs.takeWhile Char.isDigit
    let rest := cs.dropWhile Char.isDigit
    match rest with
    | [] => if intPart.isEmpty then none else some (mkRat (digitsVal intPart) 1)
    | '.' :: frac =>
      if frac.all Char.isDigit && !(intPart.isEmpty && frac.isEmpty) then
        some (mkRat (digitsVal intPart * 10 ^ frac.length + digitsVal frac)
          (10 ^ frac.length))
      else none
    | _ => none
  match pyStrip s.data with
  | '-' :: rest => (parseDec rest).map (fun q => -q)
  | '+' :: rest => parseDec rest
  | cs => parseDec cs

/-- `CFDIData` (src/core/data_models.py): one CFDI record.  Every field is a
string, defaulting to the empty string exactly as in the Python dataclass. -/
structure CFDIData where
  fecha : String := ""
  forma_pago : String := ""
  subtotal : String := ""
  descuento : String := ""
  moneda : String := ""
  total : String := ""
  tipo_comprobante : String := ""
  metodo_pago : String := ""
  emisor_rfc : String := ""
  emisor_nombre : String := ""
  emisor_regimen : String := ""
  receptor_rfc : String := ""
  receptor_nombre : String := ""
  receptor_regimen : String := ""
  total_impuestos : String := ""
  file_path : String := ""
  file_name : String := ""
  deriving Repr, DecidableEq

namespace CFDIData

/-- `CFDIData.to_excel_row`: the Excel-row dictionary, embedded as the
association list in the dictionary's insertion order B..P. -/
def to_excel_row (d : CFDIData) : List (String × String) :=
  [("B", d.fecha), ("C", d.forma_pago), ("D", d.subtotal), ("E", d.descuento),
   ("F", d.moneda), ("G", d.total), ("H", d.tipo_comprobante), ("I", d.metodo_pago),
   ("J", d.emisor_rfc), ("K", d.emisor_nombre), ("L", d.emisor_regimen),
   ("M", d.receptor_rfc), ("N", d.receptor_nombre), ("O", d.receptor_regimen),
   ("P", d.total_impuestos)]

/-- `CFDIData.from_dict`: build a record from a raw-data dictionary.
The dictionary is embedded as a total function `String → String` whose value
on a key the dictionary does not carry is `""` (Python `data.get(k, '')`). -/
def from_dict (data : String → String) : CFDIData :=
  { fecha := data "B", forma_pago := data "C", subtotal := data "D",
    descuento := data "E", moneda := data "F", total := data "G",
    tipo_comprobante := data "H", metodo_pago := data "I",
    emisor_rfc := data "J", emisor_nombre := data "K",
    emisor_regimen := data "L", receptor_rfc := data "M",
    receptor_nombre := data "N", receptor_regimen := data "O",
    total_impuestos := data "P", file_path := data "file_path",
    file_name := data "file_name" }

/-- The numeric check `validate` performs on `total` and on `subtotal`:
skipped when the field is empty (Python `if self.total and ...` short-circuit);
otherwise `float(field)` either raises `ValueError` (→ `invalidMsg`) or the
parsed value is compared with zero (→ `negMsg` when negative). -/
def numericCheck (field negMsg invalidMsg : String) : List String :=
  if field = "" then []
  else
    match pyFloat field with
    | none => [invalidMsg]
    | some v => if v < 0 then [negMsg] else []

/-- `CFDIData.validate`: sequentially appends the error messages, mirroring
the Python method's `errors.append` order. -/
def validate (d : CFDIData) : List String :=
  let errors : List String := []
  let errors := if d.fecha = "" then errors ++ ["Fecha es requerida"] else errors
  let errors := if d.total = "" then errors ++ ["Total es requerido"] else errors
  let errors := if d.emisor_rfc = "" then errors ++ ["RFC del emisor es requerido"] else errors
  let errors := if d.receptor_rfc = "" then errors ++ ["RFC del receptor es requerido"] else errors
  let errors := errors ++ numericCheck d.total "Total no puede ser negativo" "Total debe ser un número válido"
  let errors := errors ++ numericCheck d.subtotal "Subtotal no puede ser negativo" "Subtotal debe ser un número válido"
  errors

end CFDIData

/-- The 15 target column identifiers of the fixed field mapping
(`CFDI_MAPPING` in src/config/settings.py). -/
def target_columns : List String :=
  ["B", "C", "D", "E", "F", "G", "H", "I", "J", "K", "L", "M", "N", "O", "P"]

/-- One raw input record as handed to `CFDIDataProcessor.process_raw_data`.
`dict d` is a raw-data dictionary (the normal output of the XML parser),
embedded as a `get`-with-default-`""` function.  `exceptional fname msg`
embeds a value whose per-record processing raises an unexpected exception
with message `msg` (the `except Exception` arm of the per-record loop);
`fname` is what `raw_data.get('file_name', 'archivo')` yields for it:
`none` stands for an absent key, so the default `"archivo"` is used. -/
inductive RawData where
  | dict (d : String → String)
  | exceptional (fname : Option String) (msg : String)

/-- `ProcessingResult` (src/core/data_models.py), with the `date_range`
dictionary flattened into its two keys and the `__post_init__` defaults
built in. -/
structure ProcessingResult where
  successful_files : ℕ := 0
  failed_files : ℕ := 0
  total_amount : ℚ := 0
  currency : String := ""
  date_range_start : String := ""
  date_range_end : String := ""
  errors : List String := []
  processed_data : List CFDIData := []

/-- Lexicographic comparison of two character lists by code point. -/
def charListLt : List Char → List Char → Bool
  | [], [] => false
  | [], _ :: _ => true
  | _ :: _, [] => false
  | a :: as, b :: bs =>
    if a.toNat < b.toNat then true
    else if b.toNat < a.toNat then false
    else charListLt as bs

/-- Python's `<` on strings: plain lexicographic comparison of the code
point sequences (not calendar-aware, no locale). -/
def pyStrLt (a b : String) : Bool := charListLt a.data b.data

/-- Python `min(l)` over a non-empty list of strings; `""` on the empty
list, which the source never reaches. -/
def pyListMin (l : List String) : String :=
  match l with
  | [] => ""
  | x :: xs => xs.foldl (fun cur d => if pyStrLt d cur then d else cur) x

/-- Python `max(l)` over a non-empty list of strings. -/
def pyListMax (l : List String) : String :=
  match l with
  | [] => ""
  | x :: xs => xs.foldl (fun cur d => if pyStrLt cur d then d else cur) x

/-- The body of the `for raw_data in raw_data_list` loop in
`CFDIDataProcessor.process_raw_data`: one record updates the accumulated
result.  The success path appends to `processed_data`, bumps
`successful_files`, adds a parseable non-empty `total` to `total_amount`
and lets a non-empty `moneda` overwrite `currency`; a validation failure
bumps `failed_files` and appends every message prefixed with the file name;
an unexpected exception is caught, bumps `failed_files` and appends one
generic message. -/
def processOne (acc : ProcessingResult) (raw : RawData) : ProcessingResult :=
  match raw with
  | .dict d =>
    let cfdi_data := CFDIData.from_dict d
    let validation_errors := cfdi_data.validate
    if validation_errors = [] then
      let acc1 := { acc with
        processed_data := acc.processed_data ++ [cfdi_data],
        successful_files := acc.successful_files + 1 }
      let acc2 :=
        if cfdi_data.total = "" then acc1
        else
          match pyFloat cfdi_data.total with
          | some v => { acc1 with total_amount := acc1.total_amount + v }
          | none => acc1
      if cfdi_data.moneda = "" then acc2 else { acc2 with currency := cfdi_data.moneda }
    else
      { acc with
        failed_files := acc.failed_files + 1,
        errors := acc.errors ++
          validation_errors.map (fun e => cfdi_data.file_name ++ ": " ++ e) }
  | .exceptional fname msg =>
    { acc with
      failed_files := acc.failed_files + 1,
      errors := acc.errors ++
        ["Error procesando " ++ fname.getD "archivo" ++ ": " ++ msg] }

/-- `CFDIDataProcessor.process_raw_data`: fold the per-record loop over the
input list, then compute the date range from the successful records whose
`fecha` is non-empty (`[data.fecha for data in processed_data if data.fecha]`). -/
def process_raw_data (raw_data_list : List RawData) : ProcessingResult :=
  let result := raw_data_list.foldl processOne {}
  if result.processed_data = [] then result
  else
    let dates := (result.processed_data.filter (fun d => d.fecha ≠ "")).map CFDIData.fecha
    if dates = [] then result
    else { result with
      date_range_start := pyListMin dates,
      date_range_end := pyListMax dates }

/-- `CFDIXMLParser.parse_multiple_files`: each source document either parses
to a raw-data dictionary (`some data`) or fails extraction (`none`, where the
source logs a warning and skips the file without recording anything else). -/
def parse_multiple_files (docs : List (Option RawData)) : List RawData :=
  docs.foldl (fun results d =>
    match d with
    | some data => results ++ [data]
    | none => results) []

/-- Last-write-wins accumulation of the currency field over a list of
successful records, starting from `init`. -/
def lastCurrency (init : String) (l : List CFDIData) : String :=
  l.foldl (fun c d => if d.moneda = "" then c else d.moneda) init

theorem processOne_dict_success (acc : ProcessingResult) (d : String → String)
    (h : (CFDIData.from_dict d).validate = []) :
    (processOne acc (.dict d)).processed_data = acc.processed_data ++ [CFDIData.from_dict d] ∧
    (processOne acc (.dict d)).successful_files = acc.successful_files + 1 ∧
    (processOne acc (.dict d)).failed_files = acc.failed_files ∧
    (processOne acc (.dict d)).errors = acc.errors ∧
    (processOne acc (.dict d)).currency =
      (if (CFDIData.from_dict d).moneda = "" then acc.currency
       else (CFDIData.from_dict d).moneda) ∧
    (processOne acc (.dict d)).date_range_start = acc.date_range_start ∧
    (processOne acc (.dict d)).date_range_end = acc.date_range_end := by
  simp only [processOne, if_pos h]
  by_cases ht : (CFDIData.from_dict d).total = "" <;>
    by_cases hm : (CFDIData.from_dict d).moneda = "" <;>
      rcases hpf : pyFloat (CFDIData.from_dict d).total with _ | v <;>
        simp [ht, hm, hpf]

theorem processOne_dict_failure (acc : ProcessingResult) (d : String → String)
    (h : (CFDIData.from_dict d).validate ≠ []) :
    (processOne acc (.dict d)).processed_data = acc.processed_data ∧
    (processOne acc (.dict d)).successful_files = acc.successful_files ∧
    (processOne acc (.dict d)).failed_files = acc.failed_files + 1 ∧
    (processOne acc (.dict d)).errors = acc.errors ++
      (CFDIData.from_dict d).validate.map
        (fun e => (CFDIData.from_dict d).file_name ++ ": " ++ e) ∧
    (processOne acc (.dict d)).currency = acc.currency ∧
    (processOne acc (.dict d)).date_range_start = acc.date_range_start ∧
    (processOne acc (.dict d)).date_range_end = acc.date_range_end := by
  simp [processOne, if_neg h]

/-- Invariant of the per-record loop of `process_raw_data`: processing a
batch appends a block of validated records and a block of error messages,
adds one to exactly one of the two counters per input record, never removes
an error, and folds the currency over the new successful records. -/
theorem processOne_fold (raws : List RawData) (acc : ProcessingResult) :
    ∃ (new : List CFDIData) (newErrs : List String) (k : ℕ),
      (raws.foldl processOne acc).processed_data = acc.processed_data ++ new ∧
      (raws.foldl processOne acc).successful_files = acc.successful_files + new.length ∧
      (raws.foldl processOne acc).failed_files = acc.failed_files + k ∧
      new.length + k = raws.length ∧
      (raws.foldl processOne acc).errors = acc.errors ++ newErrs ∧
      k ≤ newErrs.length ∧
      (raws.foldl processOne acc).currency = lastCurrency acc.currency new ∧
      ∀ d ∈ new, d.validate = [] := by
  induction raws generalizing acc with
  | nil =>
    refine ⟨[], [], 0, ?_⟩
    simp [lastCurrency]
  | cons raw raws ih =>
    rw [List.foldl_cons]
    obtain ⟨new, newErrs, k, h1, h2, h3, h4, h5, h6, h7, h8⟩ := ih (processOne acc raw)
    cases raw with
    | dict d =>
      by_cases hv : (CFDIData.from_dict d).validate = []
      · obtain ⟨g1, g2, g3, g4, g5, -, -⟩ := processOne_dict_success acc d hv
        refine ⟨CFDIData.from_dict d :: new, newErrs, k, ?_, ?_, ?_, ?_, ?_, ?_, ?_, ?_⟩
        · rw [h1, g1]; simp
        · rw [h2, g2]; simp [Nat.add_assoc, Nat.add_comm 1]
        · rw [h3, g3]
        · simp at h4 ⊢; omega
        · rw [h5, g4]
        · exact h6
        · rw [h7, g5]; rfl
        · intro x hx
          rcases List.mem_cons.mp hx with hx | hx
          · rw [hx]; exact hv
          · exact h8 x hx
      · obtain ⟨g1, g2, g3, g4, g5, -, -⟩ := processOne_dict_failure acc d hv
        refine ⟨new,
          (CFDIData.from_dict d).validate.map
            (fun e => (CFDIData.from_dict d).file_name ++ ": " ++ e) ++ newErrs,
          k + 1, ?_, ?_, ?_, ?_, ?_, ?_, ?_, h8⟩
        · rw [h1, g1]
        · rw [h2, g2]
        · rw [h3, g3]; omega
        · simp at h4 ⊢; omega
        · rw [h5, g4]; simp
        · have hlen : 1 ≤ (CFDIData.from_dict d).validate.length :=
            List.length_pos.mpr hv
          simp; omega
        · rw [h7, g5]
    | exceptional fname msg =>
      have g1 : (processOne acc (.exceptional fname msg)).processed_data =
          acc.processed_data := rfl
      have g2 : (processOne acc (.exceptional fname msg)).successful_files =
          acc.successful_files := rfl
      have g3 : (processOne acc (.exceptional fname msg)).failed_files =
          acc.failed_files + 1 := rfl
      have g4 : (processOne acc (.exceptional fname msg)).errors = acc.errors ++
          ["Error procesando " ++ fname.getD "archivo" ++ ": " ++ msg] := rfl
      have g5 : (processOne acc (.exceptional fname msg)).currency =
          acc.currency := rfl
      refine ⟨new,
        ["Error procesando " ++ fname.getD "archivo" ++ ": " ++ msg] ++ newErrs,
        k + 1, ?_, ?_, ?_, ?_, ?_, ?_, ?_, h8⟩
      · rw [h1, g1]
      · rw [h2, g2]
      · rw [h3, g3]; omega
      · simp at h4 ⊢; omega
      · rw [h5, g4]; simp
      · simp; omega
      · rw [h7, g5]

/-- The per-record loop never touches the date-range fields; they are
computed only after the loop. -/
theorem processOne_fold_dates (raws : List RawData) (acc : ProcessingResult) :
    (raws.foldl processOne acc).date_range_start = acc.date_range_start ∧
    (raws.foldl processOne acc).date_range_end = acc.date_range_end := by
  induction raws generalizing acc with
  | nil => exact ⟨rfl, rfl⟩
  | cons raw raws ih =>
    rw [List.foldl_cons]
    obtain ⟨ih1, ih2⟩ := ih (processOne acc raw)
    have g : (processOne acc raw).date_range_start = acc.date_range_start ∧
        (processOne acc raw).date_range_end = acc.date_range_end := by
      cases raw with
      | dict d =>
        by_cases hv : (CFDIData.from_dict d).validate = []
        · obtain ⟨-, -, -, -, -, g6, g7⟩ := processOne_dict_success acc d hv
          exact ⟨g6, g7⟩
        · obtain ⟨-, -, -, -, -, g6, g7⟩ := processOne_dict_failure acc d hv
          exact ⟨g6, g7⟩
      | exceptional fname msg => exact ⟨rfl, rfl⟩
    exact ⟨ih1.trans g.1, ih2.trans g.2⟩

/-- The final date-range computation of `process_raw_data` changes no field
other than the two date-range fields. -/
theorem process_raw_data_proj (raws : List RawData) :
    (process_raw_data raws).successful_files = (raws.foldl processOne {}).successful_files ∧
    (process_raw_data raws).failed_files = (raws.foldl processOne {}).failed_files ∧
    (process_raw_data raws).errors = (raws.foldl processOne {}).errors ∧
    (process_raw_data raws).currency = (raws.foldl processOne {}).currency ∧
    (process_raw_data raws).processed_data = (raws.foldl processOne {}).processed_data := by
  simp only [process_raw_data]
  split_ifs <;> exact ⟨rfl, rfl, rfl, rfl, rfl⟩

/-- A record with an empty `fecha` never validates cleanly: the first check
appends "Fecha es requerida". -/
theorem validate_ne_nil_of_fecha (d : CFDIData) (h : d.fecha = "") :
    d.validate ≠ [] := by
  simp only [CFDIData.validate, if_pos h]
  split_ifs <;> simp

/-- A raw record the Validator/Aggregator rejects: its dictionary fails
validation, or its per-record processing raises an unexpected exception. -/
def rejected (r : RawData) : Prop :=
  match r with
  | .dict d => (CFDIData.from_dict d).validate ≠ []
  | .exceptional _ _ => True

/-- C1: for every list of raw records submitted to
`CFDIDataProcessor.process_raw_data`, the returned result satisfies
`successful_files + failed_files = length of the input`: each input record —
including one whose per-record processing raises an unexpected internal
error, which is caught and counted as a failure — is counted exactly once,
as a success or as a failure. -/
theorem process_counts_complete (raws : List RawData) :
    (process_raw_data raws).successful_files + (process_raw_data raws).failed_files =
      raws.length := by
  obtain ⟨e1, e2, -, -, -⟩ := process_raw_data_proj raws
  obtain ⟨new, newErrs, k, -, h2, h3, h4, -, -, -, -⟩ := processOne_fold raws {}
  rw [e1, e2, h2, h3]
  have : ({} : ProcessingResult).successful_files = 0 := rfl
  have : ({} : ProcessingResult).failed_files = 0 := rfl
  omega

/-- C2 (amended): every record rejected by validation, and every record
whose per-record processing raises, contributes at least one entry to the
outcome's error list — in aggregate `failed_files ≤ length errors`, and
appending one more rejected record to a batch strictly grows the error
list.  (Documents that fail extraction, by contrast, are silently skipped
by `parse_multiple_files`; see the counterexample.) -/
theorem process_rejected_records_reported (raws : List RawData) (r : RawData)
    (hr : rejected r) :
    (process_raw_data raws).failed_files ≤ (process_raw_data raws).errors.length ∧
    (process_raw_data raws).errors.length <
      (process_raw_data (raws ++ [r])).errors.length := by
  obtain ⟨-, e2, e3, -, -⟩ := process_raw_data_proj raws
  obtain ⟨-, f2, f3, -, -⟩ := process_raw_data_proj (raws ++ [r])
  obtain ⟨new, newErrs, k, -, -, h3, -, h5, h6, -, -⟩ := processOne_fold raws {}
  have hze : ({} : ProcessingResult).errors = [] := rfl
  have hzf : ({} : ProcessingResult).failed_files = 0 := rfl
  constructor
  · rw [e2, e3, h3, h5, hze, hzf]
    simp
    omega
  · rw [e3, f3, List.foldl_append, List.foldl_cons, List.foldl_nil]
    set acc := raws.foldl processOne {} with hacc
    cases r with
    | dict d =>
      have hv : (CFDIData.from_dict d).validate ≠ [] := hr
      obtain ⟨-, -, -, g4, -, -, -⟩ := processOne_dict_failure acc d hv
      rw [g4]
      have : 1 ≤ (CFDIData.from_dict d).validate.length := List.length_pos.mpr hv
      simp
      omega
    | exceptional fname msg =>
      have g4 : (processOne acc (.exceptional fname msg)).errors = acc.errors ++
          ["Error procesando " ++ fname.getD "archivo" ++ ": " ++ msg] := rfl
      rw [g4]
      simp

/-- A raw-data dictionary whose record passes every validation check. -/
def okDict : String → String := fun k =>
  if k = "B" then "2024-01-15"
  else if k = "G" then "1160.00"
  else if k = "J" then "AAA010101AAA"
  else if k = "M" then "XAXX010101000"
  else if k = "F" then "MXN"
  else if k = "file_name" then "ok.xml"
  else ""

/-- Like `okDict` with a later date and no currency. -/
def okDict2 : String → String := fun k =>
  if k = "B" then "2024-01-17"
  else if k = "G" then "1260.00"
  else if k = "J" then "AAA010101AAA"
  else if k = "M" then "XAXX010101000"
  else if k = "file_name" then "ok2.xml"
  else ""

/-- C2 counterexample: in a batch of two source documents whose first fails
extraction, the failed document is dropped by `parse_multiple_files` with
nothing but a log line, so the final outcome's error list is empty and its
failure counter is zero — the rejected document contributes no entry. -/
theorem extraction_failure_silently_dropped :
    ([none, some (RawData.dict okDict)] : List (Option RawData)).length = 2 ∧
    (parse_multiple_files [none, some (RawData.dict okDict)]).length = 1 ∧
    (process_raw_data (parse_multiple_files
      [none, some (RawData.dict okDict)])).errors = [] ∧
    (process_raw_data (parse_multiple_files
      [none, some (RawData.dict okDict)])).failed_files = 0 := by
  refine ⟨rfl, rfl, ?_, ?_⟩ <;> rfl

/-- Witness for C2's amended theorem at a concrete rejected record. -/
theorem process_rejected_records_reported_witness :
    rejected (RawData.exceptional none "boom") ∧
    (process_raw_data [RawData.dict okDict]).failed_files ≤
      (process_raw_data [RawData.dict okDict]).errors.length ∧
    (process_raw_data [RawData.dict okDict]).errors.length <
      (process_raw_data ([RawData.dict okDict] ++
        [RawData.exceptional none "boom"])).errors.length := by
  have h := process_rejected_records_reported [RawData.dict okDict]
    (RawData.exceptional none "boom") trivial
  exact ⟨trivial, h.1, h.2⟩

/-- C8: the outcome's currency is the last non-empty `moneda` among the
successfully validated records, in batch order (last-write-wins); records
with an empty `moneda` leave it unchanged, and it stays `""` when no
successful record carries a currency. -/
theorem process_currency_last_write_wins (raws : List RawData) :
    (process_raw_data raws).currency =
      (((process_raw_data raws).processed_data.map CFDIData.moneda).filter
        (fun s => s ≠ "")).getLastD "" := by
  have haux : ∀ (l : List CFDIData) (init : String),
      lastCurrency init l =
        ((l.map CFDIData.moneda).filter (fun s => s ≠ "")).getLastD init := by
    intro l
    induction l with
    | nil => intro init; rfl
    | cons d l ih =>
      intro init
      by_cases hm : d.moneda = ""
      · have h1 : lastCurrency init (d :: l) = lastCurrency init l := by
          simp [lastCurrency, hm]
        have h2 : ((d :: l).map CFDIData.moneda).filter (fun s => s ≠ "") =
            (l.map CFDIData.moneda).filter (fun s => s ≠ "") := by
          simp [hm]
        rw [h1, h2, ih init]
      · have h1 : lastCurrency init (d :: l) = lastCurrency d.moneda l := by
          simp [lastCurrency, hm]
        have h2 : ((d :: l).map CFDIData.moneda).filter (fun s => s ≠ "") =
            d.moneda :: (l.map CFDIData.moneda).filter (fun s => s ≠ "") := by
          simp [hm]
        rw [h1, h2, List.getLastD_cons, ih d.moneda]
  obtain ⟨-, -, -, e4, e5⟩ := process_raw_data_proj raws
  obtain ⟨new, newErrs, k, h1, -, -, -, -, -, h7, -⟩ := processOne_fold raws {}
  have h1n : (raws.foldl processOne {}).processed_data = new :=
    h1.trans (List.nil_append new)
  rw [e4, e5, h7, h1n]
  exact haux new ""

/-- C7: when a batch has at least one successfully validated record, the
date range is `min`/`max` of the successful records' date strings under
plain lexicographic string order, and is populated only from successful
records; when no record validates it stays the empty-string pair. -/
theorem process_date_range (raws : List RawData) :
    ((process_raw_data raws).successful_files ≠ 0 →
      (process_raw_data raws).date_range_start =
        pyListMin ((process_raw_data raws).processed_data.map CFDIData.fecha) ∧
      (process_raw_data raws).date_range_end =
        pyListMax ((process_raw_data raws).processed_data.map CFDIData.fecha)) ∧
    ((process_raw_data raws).successful_files = 0 →
      (process_raw_data raws).date_range_start = "" ∧
      (process_raw_data raws).date_range_end = "") := by
  obtain ⟨e1, -, -, -, e5⟩ := process_raw_data_proj raws
  obtain ⟨new, newErrs, k, h1, h2, -, -, -, -, -, h8⟩ := processOne_fold raws {}
  have h1n : (raws.foldl processOne {}).processed_data = new :=
    h1.trans (List.nil_append new)
  have h2n : (raws.foldl processOne {}).successful_files = new.length := by
    rw [h2]
    exact Nat.zero_add _
  have hval : ∀ d ∈ new, d.fecha ≠ "" :=
    fun d hd hf => validate_ne_nil_of_fecha d hf (h8 d hd)
  by_cases hnew : new = []
  · have hsf : (process_raw_data raws).successful_files = 0 := by
      rw [e1, h2n, hnew]
      rfl
    refine ⟨fun h => absurd hsf h, fun _ => ?_⟩
    have hfp : (raws.foldl processOne {}).processed_data = [] := by rw [h1n, hnew]
    have hpr : process_raw_data raws = raws.foldl processOne {} := by
      simp only [process_raw_data, hfp]
      simp
    rw [hpr]
    exact ⟨(processOne_fold_dates raws {}).1, (processOne_fold_dates raws {}).2⟩
  · have hfilter : new.filter (fun d => d.fecha ≠ "") = new :=
      List.filter_eq_self.mpr (fun a ha => by simpa using hval a ha)
    have hdne : new.map CFDIData.fecha ≠ [] := by
      simpa using hnew
    have hchar : (process_raw_data raws).date_range_start =
        pyListMin (new.map CFDIData.fecha) ∧
        (process_raw_data raws).date_range_end =
          pyListMax (new.map CFDIData.fecha) := by
      simp only [process_raw_data, h1n, hfilter]
      rw [if_neg hnew, if_neg hdne]
      exact ⟨rfl, rfl⟩
    have hsf : (process_raw_data raws).successful_files = new.length := by
      rw [e1, h2n]
    refine ⟨fun _ => ?_, fun h0 => ?_⟩
    · rw [e5, h1n]
      exact hchar
    · rw [hsf] at h0
      exact absurd (List.length_eq_zero.mp h0) hnew

/-- Witness for C7 at a concrete two-record batch with dates in reverse
order. -/
theorem process_date_range_witness :
    (process_raw_data [RawData.dict okDict2, RawData.dict okDict]).successful_files ≠ 0 ∧
    (process_raw_data [RawData.dict okDict2, RawData.dict okDict]).date_range_start =
      "2024-01-15" ∧
    (process_raw_data [RawData.dict okDict2, RawData.dict okDict]).date_range_end =
      "2024-01-17" := by
  have hs : (process_raw_data [RawData.dict okDict2, RawData.dict okDict]).successful_files
      ≠ 0 := by decide
  obtain ⟨hstart, hend⟩ :=
    (process_date_range [RawData.dict okDict2, RawData.dict okDict]).1 hs
  exact ⟨hs, hstart.trans (by decide), hend.trans (by decide)⟩

/-- C3: validation collects all failures in the fixed order; a record whose
date, total, sender-RFC and receiver-RFC fields are all empty (its subtotal
being empty as well, so that the subtotal numeric check is skipped as the
claim's first half states) yields exactly the 4 distinct required-field
messages, in check order — no fewer, no more. -/
theorem validate_all_required_missing (d : CFDIData)
    (h1 : d.fecha = "") (h2 : d.total = "") (h3 : d.emisor_rfc = "")
    (h4 : d.receptor_rfc = "") (h5 : d.subtotal = "") :
    d.validate = ["Fecha es requerida", "Total es requerido",
      "RFC del emisor es requerido", "RFC del receptor es requerido"] ∧
    d.validate.length = 4 ∧ d.validate.Nodup := by
  have he : d.validate = ["Fecha es requerida", "Total es requerido",
      "RFC del emisor es requerido", "RFC del receptor es requerido"] := by
    simp [CFDIData.validate, CFDIData.numericCheck, h1, h2, h3, h4, h5]
  refine ⟨he, by rw [he]; rfl, by rw [he]; decide⟩

/-- Witness for C3 at the fully-empty record. -/
theorem validate_all_required_missing_witness :
    ({} : CFDIData).fecha = "" ∧ ({} : CFDIData).total = "" ∧
    ({} : CFDIData).emisor_rfc = "" ∧ ({} : CFDIData).receptor_rfc = "" ∧
    ({} : CFDIData).subtotal = "" ∧
    ({} : CFDIData).validate = ["Fecha es requerida", "Total es requerido",
      "RFC del emisor es requerido", "RFC del receptor es requerido"] ∧
    ({} : CFDIData).validate.length = 4 ∧ ({} : CFDIData).validate.Nodup := by
  have h := validate_all_required_missing {} rfl rfl rfl rfl rfl
  exact ⟨rfl, rfl, rfl, rfl, rfl, h.1, h.2.1, h.2.2⟩

/-- C5: a record built by `from_dict` from a dictionary assigning a string
to each of the 15 target columns B..P, exported through `to_excel_row`,
reproduces every one of the 15 original string values unchanged. -/
theorem from_dict_to_excel_row_round_trip (data : String → String) :
    (CFDIData.from_dict data).to_excel_row =
      target_columns.map (fun k => (k, data k)) := rfl

/-- The Spanish three-letter month abbreviation table of
`ExcelProcessor.get_month_tab_name` (src/core/excel_processor.py). -/
def month_abbreviations : List String :=
  ["Ene", "Feb", "Mar", "Abr", "May", "Jun",
   "Jul", "Ago", "Sep", "Oct", "Nov", "Dic"]

/-- The full Spanish month-name fallback table of
`ExcelProcessor.find_month_tab`. -/
def month_names : List String :=
  ["Enero", "Febrero", "Marzo", "Abril", "Mayo", "Junio",
   "Julio", "Agosto", "Septiembre", "Octubre", "Noviembre", "Diciembre"]

/-- Python list indexing `l[i]`: a negative index counts from the end; an
index out of range raises `IndexError`, embedded as `none`. -/
def pyIndex (l : List String) (i : ℤ) : Option String :=
  if 0 ≤ i then l.get? i.toNat
  else if 0 ≤ (l.length : ℤ) + i then l.get? ((l.length : ℤ) + i).toNat
  else none

/-- Python `f"{month:02d}"` for the non-negative months this code passes. -/
def py02d (month : ℤ) : String :=
  if 0 ≤ month ∧ month < 10 then "0" ++ toString month else toString month

/-- `ExcelProcessor.get_month_tab_name`: `month_abbreviations[month - 1]`
followed by the year.  `none` embeds an uncaught `IndexError`. -/
def get_month_tab_name (month year : ℤ) : Option String :=
  (pyIndex month_abbreviations (month - 1)).map (fun a => a ++ toString year)

/-- Python's case-insensitive substring test
`needle.lower() in hay.lower()`, on the code-point lists (the sheet names
this application handles are ASCII, where `str.lower` and `Char.toLower`
agree). -/
def lowerContains (hay needle : String) : Bool :=
  (List.range ((hay.data.map Char.toLower).length + 1)).any
    (fun i => (needle.data.map Char.toLower).isPrefixOf
      ((hay.data.map Char.toLower).drop i))

/-- `ExcelProcessor.find_month_tab`, on the workbook's `sheetnames` list,
returning the resolved sheet's name.  The outer `Option` is exception
behaviour (`none` embeds an uncaught `IndexError` from the name builder);
the inner `Option` is the method's `Worksheet`-or-`None` result. -/
def find_month_tab (sheetnames : List String) (month year : ℤ) :
    Option (Option String) :=
  match get_month_tab_name month year with
  | none => none
  | some month_tab_name =>
    if sheetnames.contains month_tab_name then some (some month_tab_name)
    else
      let month_number_tab := py02d month
      if sheetnames.contains month_number_tab then some (some month_number_tab)
      else
        match pyIndex month_names (month - 1) with
        | none => none
        | some full_month_name =>
          if sheetnames.contains full_month_name then some (some full_month_name)
          else
            some (sheetnames.find?
              (fun sheet_name => lowerContains sheet_name month_tab_name))

/-- Modelled from the spec (§4.3): the ordered first-match cascade the
specification describes for sheet resolution — exact
abbreviation-plus-year name, then zero-padded two-digit month number, then
full month name, then case-insensitive substring match against the step-1
name, otherwise not found. -/
def sheetResolveSpec (sheetnames : List String) (month year : ℤ) :
    Option String :=
  let step1 := (month_abbreviations.get? (month - 1).toNat).getD "" ++ toString year
  if sheetnames.contains step1 then some step1
  else if sheetnames.contains (py02d month) then some (py02d month)
  else
    let full := (month_names.get? (month - 1).toNat).getD ""
    if sheetnames.contains full then some full
    else sheetnames.find? (fun s => lowerContains s step1)

/-- C4: for months in the declared range, `find_month_tab` raises nothing
and returns exactly the spec's first-match cascade over the four
strategies. -/
theorem find_month_tab_follows_spec (wb : List String) (m y : ℤ)
    (h1 : 1 ≤ m) (h2 : m ≤ 12) :
    find_month_tab wb m y = some (sheetResolveSpec wb m y) := by
  have h0 : (0 : ℤ) ≤ m - 1 := by omega
  have hltA : (m - 1).toNat < month_abbreviations.length := by
    simp only [month_abbreviations, List.length_cons, List.length_nil]
    omega
  have hltN : (m - 1).toNat < month_names.length := by
    simp only [month_names, List.length_cons, List.length_nil]
    omega
  obtain ⟨abbr, habbr⟩ : ∃ a, month_abbreviations.get? (m - 1).toNat = some a :=
    ⟨_, List.get?_eq_get hltA⟩
  obtain ⟨full, hfull⟩ : ∃ a, month_names.get? (m - 1).toNat = some a :=
    ⟨_, List.get?_eq_get hltN⟩
  have hpA : pyIndex month_abbreviations (m - 1) = some abbr := by
    rw [pyIndex, if_pos h0, habbr]
  have hpN : pyIndex month_names (m - 1) = some full := by
    rw [pyIndex, if_pos h0, hfull]
  rw [find_month_tab, get_month_tab_name, hpA, sheetResolveSpec]
  simp only [habbr, hfull, hpN, Option.map_some', Option.getD_some]
  split_ifs <;> rfl

/-- Witness for C4: a workbook holding both "Ene2024" and "01" resolves
month 1, year 2024 to "Ene2024" — the abbreviation match wins. -/
theorem find_month_tab_follows_spec_witness :
    (1 : ℤ) ≤ 1 ∧ (1 : ℤ) ≤ 12 ∧
    find_month_tab ["Ene2024", "01"] 1 2024 = some (some "Ene2024") := by
  refine ⟨by decide, by decide, ?_⟩
  rw [find_month_tab_follows_spec ["Ene2024", "01"] 1 2024 (by decide) (by decide)]
  decide

/-- C9: the resolver does not enforce month ∈ [1,12].  For month 0 the name
builder indexes the abbreviation table at -1 (Python negative indexing) and
produces "Dic{year}", so a workbook with a December sheet resolves month 0
to it; for every month ≥ 13 the name builder raises `IndexError` instead of
returning not-found. -/
theorem month_bounds_not_enforced (y m : ℤ) (wb : List String) :
    get_month_tab_name 0 y = some ("Dic" ++ toString y) ∧
    find_month_tab ["Dic2024"] 0 2024 = some (some "Dic2024") ∧
    (13 ≤ m → find_month_tab wb m y = none) := by
  refine ⟨rfl, by decide, fun h13 => ?_⟩
  have hnone : month_abbreviations.get? (m - 1).toNat = none := by
    apply List.get?_eq_none.mpr
    simp only [month_abbreviations, List.length_cons, List.length_nil]
    omega
  have hpA : pyIndex month_abbreviations (m - 1) = none := by
    rw [pyIndex, if_pos (by omega : (0 : ℤ) ≤ m - 1), hnone]
  rw [find_month_tab, get_month_tab_name, hpA]
  rfl

/-- Witness for C9 at month 13 on an arbitrary workbook. -/
theorem month_bounds_not_enforced_witness :
    (13 : ℤ) ≤ 13 ∧ find_month_tab ["Ene2024"] 13 2024 = none := by
  exact ⟨by decide, (month_bounds_not_enforced 2024 13 ["Ene2024"]).2.2 (by decide)⟩

/-- `EXCEL_CONFIG["header_row"]` (src/config/settings.py). -/
def header_row : ℕ := 3

/-- `EXCEL_CONFIG["data_start_row"]` (src/config/settings.py). -/
def data_start_row : ℕ := 4

/-- An openpyxl worksheet, abstracted to its cell values: `val r c` is the
value of the cell at (1-based) row `r` and column `c`, `none` for an empty
cell, and `maxRow`/`maxCol` are the used extent (`max_row`/`max_column`).
Number formats are not modelled: the writer derives a cell's format
deterministically from the value written into it, so the data region is
characterised by values alone. -/
structure Worksheet where
  maxRow : ℕ
  maxCol : ℕ
  val : ℕ → ℕ → Option String

/-- `worksheet.cell(row=r, column=c)` followed by `cell.value = v`:
accessing the cell materialises it, so the used extent grows to cover
(r, c) even when `v` is `None`. -/
def setCell (w : Worksheet) (r c : ℕ) (v : Option String) : Worksheet :=
  { maxRow := max w.maxRow r, maxCol := max w.maxCol c,
    val := fun rr cc => if rr = r ∧ cc = c then v else w.val rr cc }

/-- The inner loop of `ExcelProcessor.clear_month_data`: blank every cell of
row `row` in columns `1..max_column` (the column bound is re-read at the
start of the row, as `range(1, worksheet.max_column + 1)` is). -/
def clearRow (w : Worksheet) (row : ℕ) : Worksheet :=
  (List.range' 1 w.maxCol).foldl (fun w2 col => setCell w2 row col none) w

/-- `ExcelProcessor.clear_month_data`: blank every cell in rows
`start_row..max_row` (bound captured once by `range(start_row,
worksheet.max_row + 1)`). -/
def clear_month_data (w : Worksheet) (start_row : ℕ) : Worksheet :=
  (List.range' start_row (w.maxRow + 1 - start_row)).foldl clearRow w

/-- `openpyxl.utils.column_index_from_string` for the single-letter column
names this application uses: A=1, B=2, …. -/
def column_index_from_string (s : String) : ℕ :=
  match s.data with
  | [c] => c.toNat - 64
  | _ => 0

/-- The inner loop of `ExcelProcessor.fill_month_tab`: write one record's
`to_excel_row` dictionary into row `row`, one field per mapped column. -/
def fillRecord (w : Worksheet) (row : ℕ) (d : CFDIData) : Worksheet :=
  d.to_excel_row.foldl
    (fun w2 p => setCell w2 row (column_index_from_string p.1) (some p.2)) w

/-- `ExcelProcessor.fill_month_tab`: clear the sheet from the data start
row, then write the records row by row starting there
(`enumerate(cfdi_data_list, start=start_row)`). -/
def fill_month_tab (w : Worksheet) (records : List CFDIData) : Worksheet :=
  let w1 := clear_month_data w data_start_row
  (List.enumFrom data_start_row records).foldl
    (fun w2 p => fillRecord w2 p.1 p.2) w1

/-- Structural-recursion form of the record-writing loop, used to reason
about `fill_month_tab`. -/
def writeRecords (w : Worksheet) (start : ℕ) : List CFDIData → Worksheet
  | [] => w
  | d :: ds => writeRecords (fillRecord w start d) (start + 1) ds

/-- The value `fill_month_tab` assigns in a data row at column `c` for the
record `d`: the field mapped to that column, or nothing outside columns
B..P (2..16). -/
def colVal (d : CFDIData) (c : ℕ) : Option String :=
  if c = 2 then some d.fecha
  else if c = 3 then some d.forma_pago
  else if c = 4 then some d.subtotal
  else if c = 5 then some d.descuento
  else if c = 6 then some d.moneda
  else if c = 7 then some d.total
  else if c = 8 then some d.tipo_comprobante
  else if c = 9 then some d.metodo_pago
  else if c = 10 then some d.emisor_rfc
  else if c = 11 then some d.emisor_nombre
  else if c = 12 then some d.emisor_regimen
  else if c = 13 then some d.receptor_rfc
  else if c = 14 then some d.receptor_nombre
  else if c = 15 then some d.receptor_regimen
  else if c = 16 then some d.total_impuestos
  else none

/-- The intended contents of the data region (rows at or below
`data_start_row`) after writing `records`. -/
def regionVal (records : List CFDIData) (r c : ℕ) : Option String :=
  match records.get? (r - data_start_row) with
  | some d => colVal d c
  | none => none

/-- A worksheet whose cells live only inside its used extent, in rows and
columns numbered from 1 — what openpyxl guarantees of a loaded sheet. -/
def Tidy (w : Worksheet) : Prop :=
  ∀ r c, (w.maxRow < r ∨ w.maxCol < c ∨ c = 0) → w.val r c = none

theorem setCell_val (w : Worksheet) (r c : ℕ) (v : Option String) (rr cc : ℕ) :
    (setCell w r c v).val rr cc = if rr = r ∧ cc = c then v else w.val rr cc := rfl

theorem colIdxB : column_index_from_string "B" = 2 := rfl
theorem colIdxC : column_index_from_string "C" = 3 := rfl
theorem colIdxD : column_index_from_string "D" = 4 := rfl
theorem colIdxE : column_index_from_string "E" = 5 := rfl
theorem colIdxF : column_index_from_string "F" = 6 := rfl
theorem colIdxG : column_index_from_string "G" = 7 := rfl
theorem colIdxH : column_index_from_string "H" = 8 := rfl
theorem colIdxI : column_index_from_string "I" = 9 := rfl
theorem colIdxJ : column_index_from_string "J" = 10 := rfl
theorem colIdxK : column_index_from_string "K" = 11 := rfl
theorem colIdxL : column_index_from_string "L" = 12 := rfl
theorem colIdxM : column_index_from_string "M" = 13 := rfl
theorem colIdxN : column_index_from_string "N" = 14 := rfl
theorem colIdxO : column_index_from_string "O" = 15 := rfl
theorem colIdxP : column_index_from_string "P" = 16 := rfl

/-- A fold of `setCell` writes into one row: the resulting cell value is
the last write to that column (first hit in the reversed write list), and
everything outside the row is untouched. -/
theorem foldlSet_val (row : ℕ) (ps : List (ℕ × String)) :
    ∀ (w : Worksheet) (r c : ℕ),
      (ps.foldl (fun w2 p => setCell w2 row p.1 (some p.2)) w).val r c =
        match ps.reverse.find? (fun p => p.1 == c) with
        | some p => if r = row then some p.2 else w.val r c
        | none => w.val r c := by
  induction ps with
  | nil => intro w r c; rfl
  | cons p ps ih =>
    intro w r c
    rw [List.foldl_cons, ih, List.reverse_cons, List.find?_append]
    cases hf : ps.reverse.find? (fun q => q.1 == c) with
    | some q =>
      simp only [Option.or]
      by_cases hr : r = row <;> simp [hr, setCell_val]
    | none =>
      simp only [Option.or]
      by_cases hc : p.1 = c
      · have hbeq : (p.1 == c) = true := beq_iff_eq.mpr hc
        have hfind : [p].find? (fun q => q.1 == c) = some p := by
          simp [List.find?, hbeq]
        rw [hfind, setCell_val]
        by_cases hr : r = row <;> simp [hr, hc]
      · have hbeq : (p.1 == c) = false := beq_eq_false_iff_ne.mpr hc
        have hfind : [p].find? (fun q => q.1 == c) = none := by
          simp [List.find?, hbeq]
        rw [hfind, setCell_val]
        have hno : ¬(r = row ∧ c = p.1) := by
          rintro ⟨-, rfl⟩
          exact hc rfl
        simp [hno]

/-- `fillRecord` is the `setCell` fold over the concrete column-indexed
row pairs. -/
theorem fillRecord_eq_foldlSet (w : Worksheet) (row : ℕ) (d : CFDIData) :
    fillRecord w row d =
      ([(2, d.fecha), (3, d.forma_pago), (4, d.subtotal), (5, d.descuento),
        (6, d.moneda), (7, d.total), (8, d.tipo_comprobante), (9, d.metodo_pago),
        (10, d.emisor_rfc), (11, d.emisor_nombre), (12, d.emisor_regimen),
        (13, d.receptor_rfc), (14, d.receptor_nombre), (15, d.receptor_regimen),
        (16, d.total_impuestos)] : List (ℕ × String)).foldl
        (fun w2 p => setCell w2 row p.1 (some p.2)) w := rfl

theorem colVal_none (d : CFDIData) (c : ℕ) (h : c < 2 ∨ 16 < c) :
    colVal d c = none := by
  have g2 : c ≠ 2 := by omega
  have g3 : c ≠ 3 := by omega
  have g4 : c ≠ 4 := by omega
  have g5 : c ≠ 5 := by omega
  have g6 : c ≠ 6 := by omega
  have g7 : c ≠ 7 := by omega
  have g8 : c ≠ 8 := by omega
  have g9 : c ≠ 9 := by omega
  have g10 : c ≠ 10 := by omega
  have g11 : c ≠ 11 := by omega
  have g12 : c ≠ 12 := by omega
  have g13 : c ≠ 13 := by omega
  have g14 : c ≠ 14 := by omega
  have g15 : c ≠ 15 := by omega
  have g16 : c ≠ 16 := by omega
  simp [colVal, g2, g3, g4, g5, g6, g7, g8, g9, g10, g11, g12, g13, g14,
    g15, g16]

set_option maxHeartbeats 1600000 in
/-- Writing one record into row `row` sets exactly the mapped columns B..P
of that row to the record's fields and leaves every other cell untouched. -/
theorem fillRecord_val (w : Worksheet) (row : ℕ) (d : CFDIData) (r c : ℕ) :
    (fillRecord w row d).val r c =
      if r = row ∧ 2 ≤ c ∧ c ≤ 16 then colVal d c else w.val r c := by
  rw [fillRecord_eq_foldlSet, foldlSet_val]
  have hrev : ([(2, d.fecha), (3, d.forma_pago), (4, d.subtotal), (5, d.descuento),
      (6, d.moneda), (7, d.total), (8, d.tipo_comprobante), (9, d.metodo_pago),
      (10, d.emisor_rfc), (11, d.emisor_nombre), (12, d.emisor_regimen),
      (13, d.receptor_rfc), (14, d.receptor_nombre), (15, d.receptor_regimen),
      (16, d.total_impuestos)] : List (ℕ × String)).reverse =
      [(16, d.total_impuestos), (15, d.receptor_regimen), (14, d.receptor_nombre),
       (13, d.receptor_rfc), (12, d.emisor_regimen), (11, d.emisor_nombre),
       (10, d.emisor_rfc), (9, d.metodo_pago), (8, d.tipo_comprobante),
       (7, d.total), (6, d.moneda), (5, d.descuento), (4, d.subtotal),
       (3, d.forma_pago), (2, d.fecha)] := rfl
  rw [hrev]
  by_cases hin : 2 ≤ c ∧ c ≤ 16
  · obtain ⟨hc2, hc16⟩ := hin
    interval_cases c <;> simp [List.find?, colVal]
  · have hcr : c < 2 ∨ 16 < c := by omega
    have hne : ∀ k : ℕ, k ≠ c → (k == c) = false :=
      fun k hk => beq_eq_false_iff_ne.mpr hk
    have hfind : ([(16, d.total_impuestos), (15, d.receptor_regimen),
        (14, d.receptor_nombre), (13, d.receptor_rfc), (12, d.emisor_regimen),
        (11, d.emisor_nombre), (10, d.emisor_rfc), (9, d.metodo_pago),
        (8, d.tipo_comprobante), (7, d.total), (6, d.moneda), (5, d.descuento),
        (4, d.subtotal), (3, d.forma_pago), (2, d.fecha)] : List (ℕ × String)).find?
          (fun p => p.1 == c) = none := by
      simp [List.find?, hne 16 (by omega), hne 15 (by omega), hne 14 (by omega),
        hne 13 (by omega), hne 12 (by omega), hne 11 (by omega), hne 10 (by omega),
        hne 9 (by omega), hne 8 (by omega), hne 7 (by omega), hne 6 (by omega),
        hne 5 (by omega), hne 4 (by omega), hne 3 (by omega), hne 2 (by omega)]
    rw [hfind]
    simp [hin]

theorem foldlSet_maxRow (row : ℕ) (ps : List (ℕ × String)) :
    ∀ w : Worksheet,
      (ps.foldl (fun w2 p => setCell w2 row p.1 (some p.2)) w).maxRow =
        if ps = [] then w.maxRow else max w.maxRow row := by
  induction ps with
  | nil => intro w; rfl
  | cons p ps ih =>
    intro w
    rw [List.foldl_cons, ih]
    have hs : (setCell w row p.1 (some p.2)).maxRow = max w.maxRow row := rfl
    by_cases h : ps = []
    · simp [h, hs]
    · simp only [h, hs, if_false, if_neg (List.cons_ne_nil p ps)]
      omega

theorem foldlSet_maxCol_mono (row : ℕ) (ps : List (ℕ × String)) :
    ∀ w : Worksheet,
      w.maxCol ≤ (ps.foldl (fun w2 p => setCell w2 row p.1 (some p.2)) w).maxCol := by
  induction ps with
  | nil => intro w; exact le_refl _
  | cons p ps ih =>
    intro w
    rw [List.foldl_cons]
    exact le_trans (le_max_left w.maxCol p.1) (ih (setCell w row p.1 (some p.2)))

theorem foldlSet_maxCol_ge_mem (row : ℕ) (ps : List (ℕ × String)) :
    ∀ (k : ℕ), k ∈ ps.map Prod.fst → ∀ w : Worksheet,
      k ≤ (ps.foldl (fun w2 p => setCell w2 row p.1 (some p.2)) w).maxCol := by
  induction ps with
  | nil => intro k hk; simp at hk
  | cons p ps ih =>
    intro k hk w
    rw [List.foldl_cons]
    rw [List.map_cons] at hk
    rcases List.mem_cons.mp hk with h | h
    · subst h
      exact le_trans (le_max_right w.maxCol p.1)
        (foldlSet_maxCol_mono row ps (setCell w row p.1 (some p.2)))
    · exact ih k h (setCell w row p.1 (some p.2))

theorem fillRecord_maxRow (w : Worksheet) (row : ℕ) (d : CFDIData) :
    (fillRecord w row d).maxRow = max w.maxRow row := by
  rw [fillRecord_eq_foldlSet, foldlSet_maxRow]
  simp

theorem fillRecord_maxCol_ge16 (w : Worksheet) (row : ℕ) (d : CFDIData) :
    16 ≤ (fillRecord w row d).maxCol := by
  rw [fillRecord_eq_foldlSet]
  exact foldlSet_maxCol_ge_mem row _ 16 (by simp) w

theorem fillRecord_maxCol_mono (w : Worksheet) (row : ℕ) (d : CFDIData) :
    w.maxCol ≤ (fillRecord w row d).maxCol := by
  rw [fillRecord_eq_foldlSet]
  exact foldlSet_maxCol_mono row _ w

attribute [irreducible] fillRecord

/-- The `enumerate(cfdi_data_list, start=start_row)` write loop of
`fill_month_tab` is the structural `writeRecords`. -/
theorem enumFrom_foldl_eq_writeRecords (records : List CFDIData) :
    ∀ (i : ℕ) (w : Worksheet),
      (List.enumFrom i records).foldl (fun w2 p => fillRecord w2 p.1 p.2) w =
        writeRecords w i records := by
  induction records with
  | nil => intro i w; rfl
  | cons d ds ih =>
    intro i w
    rw [show List.enumFrom i (d :: ds) = (i, d) :: List.enumFrom (i + 1) ds from rfl,
      List.foldl_cons]
    exact ih (i + 1) (fillRecord w i d)

/-- Rows strictly above the write start are never touched by the record
writer. -/
theorem writeRecords_frame (records : List CFDIData) :
    ∀ (start : ℕ) (w : Worksheet) (r c : ℕ), r < start →
      (writeRecords w start records).val r c = w.val r c := by
  induction records with
  | nil => intro start w r c _; rfl
  | cons d ds ih =>
    intro start w r c h
    simp only [writeRecords]
    rw [ih (start + 1) _ r c (by omega), fillRecord_val,
      if_neg (by rintro ⟨rfl, -⟩; omega)]

/-- On a region that starts blank, the record writer produces exactly the
intended data region: row `start + i` carries record `i`'s fields in
columns 2..16 and nothing else. -/
theorem writeRecords_val (records : List CFDIData) :
    ∀ (start : ℕ) (w : Worksheet),
      (∀ rr cc, start ≤ rr → w.val rr cc = none) →
      ∀ r c, start ≤ r →
        (writeRecords w start records).val r c =
          match records.get? (r - start) with
          | some d => colVal d c
          | none => none := by
  induction records with
  | nil =>
    intro start w hbase r c hr
    simp only [writeRecords, List.get?_nil]
    exact hbase r c hr
  | cons d ds ih =>
    intro start w hbase r c hr
    simp only [writeRecords]
    rcases eq_or_lt_of_le hr with heq | hlt
    · rw [writeRecords_frame ds (start + 1) _ r c (by omega), fillRecord_val]
      subst heq
      rw [Nat.sub_self, List.get?_cons_zero]
      by_cases hc : 2 ≤ c ∧ c ≤ 16
      · rw [if_pos ⟨rfl, hc.1, hc.2⟩]
      · rw [if_neg (by tauto), hbase start c (le_refl _),
          (colVal_none d c (by omega)).symm]
    · have hbase2 : ∀ rr cc, start + 1 ≤ rr → (fillRecord w start d).val rr cc = none := by
        intro rr cc hrr
        rw [fillRecord_val, if_neg (by rintro ⟨rfl, -⟩; omega)]
        exact hbase rr cc (by omega)
      rw [ih (start + 1) _ hbase2 r c (by omega),
        show r - start = (r - (start + 1)) + 1 by omega, List.get?_cons_succ]

theorem writeRecords_maxRow_mono (records : List CFDIData) :
    ∀ (start : ℕ) (w : Worksheet),
      w.maxRow ≤ (writeRecords w start records).maxRow := by
  induction records with
  | nil => intro start w; exact le_refl _
  | cons d ds ih =>
    intro start w
    simp only [writeRecords]
    refine le_trans ?_ (ih (start + 1) (fillRecord w start d))
    rw [fillRecord_maxRow]
    exact le_max_left _ _

/-- Writing a non-empty batch pushes the used extent at least to the last
written row. -/
theorem writeRecords_maxRow_ge (records : List CFDIData) :
    ∀ (start : ℕ) (w : Worksheet), records ≠ [] →
      start + records.length - 1 ≤ (writeRecords w start records).maxRow := by
  induction records with
  | nil => intro start w h; exact absurd rfl h
  | cons d ds ih =>
    intro start w _
    simp only [writeRecords, List.length_cons]
    by_cases hds : ds = []
    · subst hds
      simp only [writeRecords, List.length_nil]
      rw [fillRecord_maxRow]
      have := le_max_right w.maxRow start
      omega
    · have h := ih (start + 1) (fillRecord w start d) hds
      omega

/-- Writing a non-empty batch pushes the used column extent at least to
column P = 16. -/
theorem writeRecords_maxCol_ge (records : List CFDIData) :
    ∀ (start : ℕ) (w : Worksheet), records ≠ [] →
      16 ≤ (writeRecords w start records).maxCol := by
  induction records with
  | nil => intro start w h; exact absurd rfl h
  | cons d ds ih =>
    intro start w _
    simp only [writeRecords]
    by_cases hds : ds = []
    · subst hds
      exact fillRecord_maxCol_ge16 w start d
    · exact ih (start + 1) (fillRecord w start d) hds

/-- Blanking a set of columns of one row: cell values. -/
theorem clearCells_val (row : ℕ) (cols : List ℕ) :
    ∀ (w : Worksheet) (r c : ℕ),
      (cols.foldl (fun w2 col => setCell w2 row col none) w).val r c =
        if r = row ∧ c ∈ cols then none else w.val r c := by
  induction cols with
  | nil => intro w r c; simp
  | cons a cols ih =>
    intro w r c
    rw [List.foldl_cons, ih, setCell_val]
    simp only [List.mem_cons]
    by_cases h1 : r = row
    · subst h1
      by_cases h2 : c ∈ cols
      · simp [h2]
      · by_cases h3 : c = a <;> simp [h2, h3]
    · simp [h1]

/-- Blanking cells inside the current extent does not move the extent. -/
theorem clearCells_maxes (row : ℕ) (cols : List ℕ) :
    ∀ (w : Worksheet), row ≤ w.maxRow → (∀ x ∈ cols, x ≤ w.maxCol) →
      (cols.foldl (fun w2 col => setCell w2 row col none) w).maxRow = w.maxRow ∧
      (cols.foldl (fun w2 col => setCell w2 row col none) w).maxCol = w.maxCol := by
  induction cols with
  | nil => intro w _ _; exact ⟨rfl, rfl⟩
  | cons a cols ih =>
    intro w hrow hcols
    rw [List.foldl_cons]
    have h1 : (setCell w row a none).maxRow = w.maxRow := by
      simp only [setCell]
      omega
    have h2 : (setCell w row a none).maxCol = w.maxCol := by
      have := hcols a (List.mem_cons_self a cols)
      simp only [setCell]
      omega
    obtain ⟨i1, i2⟩ := ih (setCell w row a none) (by rw [h1]; exact hrow)
      (fun x hx => by rw [h2]; exact hcols x (List.mem_cons_of_mem a hx))
    exact ⟨i1.trans h1, i2.trans h2⟩

theorem clearRow_val (w : Worksheet) (row r c : ℕ) :
    (clearRow w row).val r c =
      if r = row ∧ 1 ≤ c ∧ c ≤ w.maxCol then none else w.val r c := by
  rw [clearRow, clearCells_val]
  by_cases h : r = row ∧ 1 ≤ c ∧ c ≤ w.maxCol
  · rw [if_pos h, if_pos ⟨h.1, List.mem_range'_1.mpr ⟨h.2.1, by omega⟩⟩]
  · rw [if_neg ?hn, if_neg h]
    rintro ⟨ha, hm⟩
    have := List.mem_range'_1.mp hm
    exact h ⟨ha, this.1, by omega⟩

theorem clearRow_maxes (w : Worksheet) (row : ℕ) (h : row ≤ w.maxRow) :
    (clearRow w row).maxRow = w.maxRow ∧ (clearRow w row).maxCol = w.maxCol := by
  rw [clearRow]
  exact clearCells_maxes row _ w h
    (fun x hx => by have := List.mem_range'_1.mp hx; omega)

/-- Blanking a list of rows inside the current extent: values and extent. -/
theorem clearRows_spec (rows : List ℕ) :
    ∀ (w : Worksheet), (∀ x ∈ rows, x ≤ w.maxRow) →
      (rows.foldl clearRow w).maxRow = w.maxRow ∧
      (rows.foldl clearRow w).maxCol = w.maxCol ∧
      ∀ r c, (rows.foldl clearRow w).val r c =
        if r ∈ rows ∧ 1 ≤ c ∧ c ≤ w.maxCol then none else w.val r c := by
  induction rows with
  | nil =>
    intro w _
    exact ⟨rfl, rfl, fun r c => by simp⟩
  | cons a rows ih =>
    intro w hrows
    rw [List.foldl_cons]
    have ha : a ≤ w.maxRow := hrows a (List.mem_cons_self a rows)
    obtain ⟨m1, m2⟩ := clearRow_maxes w a ha
    obtain ⟨i1, i2, i3⟩ := ih (clearRow w a)
      (fun x hx => by rw [m1]; exact hrows x (List.mem_cons_of_mem a hx))
    refine ⟨i1.trans m1, i2.trans m2, fun r c => ?_⟩
    rw [i3, m2, clearRow_val]
    simp only [List.mem_cons]
    by_cases h1 : 1 ≤ c ∧ c ≤ w.maxCol
    · by_cases h2 : r ∈ rows
      · simp [h1, h2]
      · by_cases h3 : r = a <;> simp [h1, h2, h3]
    · simp [h1]

/-- `clear_month_data` blanks exactly the cells at or below the start row
inside the sheet's used extent, and does not move the extent. -/
theorem clear_month_data_spec (w : Worksheet) (start : ℕ) :
    (clear_month_data w start).maxRow = w.maxRow ∧
    (clear_month_data w start).maxCol = w.maxCol ∧
    ∀ r c, (clear_month_data w start).val r c =
      if start ≤ r ∧ r ≤ w.maxRow ∧ 1 ≤ c ∧ c ≤ w.maxCol then none
      else w.val r c := by
  rw [clear_month_data]
  obtain ⟨i1, i2, i3⟩ := clearRows_spec (List.range' start (w.maxRow + 1 - start)) w
    (fun x hx => by have := List.mem_range'_1.mp hx; omega)
  refine ⟨i1, i2, fun r c => ?_⟩
  rw [i3]
  by_cases h : start ≤ r ∧ r ≤ w.maxRow ∧ 1 ≤ c ∧ c ≤ w.maxCol
  · rw [if_pos h, if_pos ⟨List.mem_range'_1.mpr ⟨h.1, by omega⟩, h.2.2.1, h.2.2.2⟩]
  · rw [if_neg ?hn, if_neg h]
    rintro ⟨hm, hc1, hc2⟩
    have := List.mem_range'_1.mp hm
    exact h ⟨this.1, by omega, hc1, hc2⟩

/-- `fill_month_tab` is clear-then-write. -/
theorem fill_month_tab_eq (w : Worksheet) (records : List CFDIData) :
    fill_month_tab w records =
      writeRecords (clear_month_data w data_start_row) data_start_row records := by
  simp only [fill_month_tab]
  exact enumFrom_foldl_eq_writeRecords records data_start_row _

theorem regionVal_none_col (records : List CFDIData) (r c : ℕ)
    (h : c < 2 ∨ 16 < c) : regionVal records r c = none := by
  unfold regionVal
  cases hg : records.get? (r - data_start_row) with
  | none => rfl
  | some d => exact colVal_none d c h

theorem regionVal_none_row (records : List CFDIData) (r c : ℕ)
    (h : records.length ≤ r - data_start_row) : regionVal records r c = none := by
  unfold regionVal
  rw [List.get?_eq_none.mpr h]

/-- After one run on a tidy sheet, the data region holds exactly the
records and nothing else. -/
theorem fill_month_tab_region (w : Worksheet) (records : List CFDIData)
    (hw : Tidy w) :
    ∀ r c, data_start_row ≤ r →
      (fill_month_tab w records).val r c = regionVal records r c := by
  intro r c hr
  rw [fill_month_tab_eq]
  have hbase : ∀ rr cc, data_start_row ≤ rr →
      (clear_month_data w data_start_row).val rr cc = none := by
    intro rr cc hrr
    obtain ⟨-, -, i3⟩ := clear_month_data_spec w data_start_row
    rw [i3]
    by_cases h : data_start_row ≤ rr ∧ rr ≤ w.maxRow ∧ 1 ≤ cc ∧ cc ≤ w.maxCol
    · rw [if_pos h]
    · rw [if_neg h]
      apply hw
      omega
  rw [writeRecords_val records data_start_row _ hbase r c hr]
  rfl

theorem fill_month_tab_maxRow_ge (w : Worksheet) (records : List CFDIData)
    (h : records ≠ []) :
    data_start_row + records.length - 1 ≤ (fill_month_tab w records).maxRow := by
  rw [fill_month_tab_eq]
  exact writeRecords_maxRow_ge records data_start_row _ h

theorem fill_month_tab_maxCol_ge (w : Worksheet) (records : List CFDIData)
    (h : records ≠ []) : 16 ≤ (fill_month_tab w records).maxCol := by
  rw [fill_month_tab_eq]
  exact writeRecords_maxCol_ge records data_start_row _ h

/-- A second clear wipes everything the first run left in the data region:
the prior run's rows all lie inside the new used extent. -/
theorem cleared_after_fill (w : Worksheet) (records : List CFDIData)
    (hw : Tidy w) :
    ∀ rr cc, data_start_row ≤ rr →
      (clear_month_data (fill_month_tab w records) data_start_row).val rr cc =
        none := by
  intro rr cc hrr
  obtain ⟨-, -, i3⟩ := clear_month_data_spec (fill_month_tab w records) data_start_row
  rw [i3]
  by_cases h : data_start_row ≤ rr ∧ rr ≤ (fill_month_tab w records).maxRow ∧
      1 ≤ cc ∧ cc ≤ (fill_month_tab w records).maxCol
  · rw [if_pos h]
  · rw [if_neg h]
    rw [fill_month_tab_region w records hw rr cc hrr]
    by_cases hrec : records = []
    · subst hrec
      exact regionVal_none_row [] rr cc (by simp)
    · have hrow := fill_month_tab_maxRow_ge w records hrec
      have hcol := fill_month_tab_maxCol_ge w records hrec
      have hlen : 1 ≤ records.length := List.length_pos.mpr hrec
      rcases (by omega : (fill_month_tab w records).maxRow < rr ∨
          (fill_month_tab w records).maxCol < cc ∨ cc = 0) with h1 | h1 | h1
      · exact regionVal_none_row records rr cc (by omega)
      · exact regionVal_none_col records rr cc (by omega)
      · exact regionVal_none_col records rr cc (by omega)

/-- Re-running the writer reproduces exactly the same data region. -/
theorem fill_month_tab_region_twice (w : Worksheet) (records : List CFDIData)
    (hw : Tidy w) :
    ∀ r c, data_start_row ≤ r →
      (fill_month_tab (fill_month_tab w records) records).val r c =
        regionVal records r c := by
  intro r c hr
  rw [fill_month_tab_eq (fill_month_tab w records)]
  rw [writeRecords_val records data_start_row _ (cleared_after_fill w records hw) r c hr]
  rfl

/-- C6: on a tidy template sheet the writer clears the whole data region
(rows at or below the first data row, columns up to the used extent) before
writing, so a single run leaves exactly the records in the data region, a
second run of the same records leaves no residual rows from the first, and
the two runs' data regions are identical cell for cell. -/
theorem template_writer_clear_before_write (ws : Worksheet)
    (records : List CFDIData) (hw : Tidy ws) :
    (∀ r c, data_start_row ≤ r →
      (fill_month_tab ws records).val r c = regionVal records r c) ∧
    (∀ r c, data_start_row ≤ r →
      (fill_month_tab (fill_month_tab ws records) records).val r c =
        regionVal records r c) ∧
    (∀ r c, data_start_row ≤ r →
      (fill_month_tab (fill_month_tab ws records) records).val r c =
        (fill_month_tab ws records).val r c) :=
  ⟨fill_month_tab_region ws records hw,
   fill_month_tab_region_twice ws records hw,
   fun r c h => (fill_month_tab_region_twice ws records hw r c h).trans
     (fill_month_tab_region ws records hw r c h).symm⟩

/-- A blank 1×1 sheet, as a concrete tidy worksheet. -/
def emptySheet : Worksheet := ⟨1, 1, fun _ _ => none⟩

/-- Witness for C6 on a blank sheet and one concrete record. -/
theorem template_writer_clear_before_write_witness :
    regionVal [CFDIData.from_dict okDict] 4 2 = some "2024-01-15" ∧
    (fill_month_tab emptySheet [CFDIData.from_dict okDict]).val 4 2 =
      regionVal [CFDIData.from_dict okDict] 4 2 ∧
    (fill_month_tab (fill_month_tab emptySheet [CFDIData.from_dict okDict])
      [CFDIData.from_dict okDict]).val 4 2 =
      (fill_month_tab emptySheet [CFDIData.from_dict okDict]).val 4 2 := by
  have h := template_writer_clear_before_write emptySheet
    [CFDIData.from_dict okDict] (fun r c hrc => rfl)
  exact ⟨by decide, h.1 4 2 (by decide), h.2.2 4 2 (by decide)⟩

/-- C10: cells in rows strictly above the first data row — the header row
at row 3 and everything above it — are never modified by the writer:
clearing starts at the data start row and records are written from there
downward. -/
theorem fill_month_tab_preserves_header (ws : Worksheet)
    (records : List CFDIData) (r c : ℕ) (h : r < data_start_row) :
    (fill_month_tab ws records).val r c = ws.val r c := by
  rw [fill_month_tab_eq, writeRecords_frame records data_start_row _ r c h]
  obtain ⟨-, -, i3⟩ := clear_month_data_spec ws data_start_row
  rw [i3, if_neg (by rintro ⟨h1, -⟩; omega)]

/-- Witness for C10 at the header row of a blank sheet. -/
theorem fill_month_tab_preserves_header_witness :
    header_row < data_start_row ∧
    (fill_month_tab emptySheet [CFDIData.from_dict okDict]).val header_row 2 =
      emptySheet.val header_row 2 :=
  ⟨by decide, fill_month_tab_preserves_header emptySheet
    [CFDIData.from_dict okDict] header_row 2 (by decide)⟩
